import Mathlib

/-!
Shallow embedding of the amortization engine in `src/app.py` of the
home-affordability-calculator repository.

Python `Decimal` values are modelled as exact rationals (`ℚ`); the code's
`quantize(Decimal("0.01"), ROUND_HALF_UP)` becomes the `money` function below.
The two `while` loops (`simulate_schedule`, `simulate_with_prepay`) are
bounded by the hard cap of 2000 iterations, so they are embedded as
structural recursion on the remaining fuel (`2000 - month`); a loop step is a
total function returning `next`/`done`/`fail`, and `runLoop` drives it.
A Python `raise ValueError` is an `Except.error`, so an aborted simulation
returns no (partial) schedule by construction.
-/

/-- ROUND_HALF_UP to an integer: nearest integer, ties rounded away from zero
(the rounding mode used by every `quantize` call in `src/app.py`). -/
def roundHalfUp (x : ℚ) : ℤ :=
  if 0 ≤ x then ⌊x + 1/2⌋ else -⌊1/2 - x⌋

/-- `money` from `src/app.py` (line 14): quantize to 2 decimal places with
ROUND_HALF_UP. -/
def money (x : ℚ) : ℚ :=
  (roundHalfUp (x * 100) : ℚ) / 100

/-- `monthly_rate` from `src/app.py` (line 25): annual percentage / 1200. -/
def monthly_rate (annual_pct : ℚ) : ℚ :=
  annual_pct / (12 * 100)

/-- `calc_standard_emi` from `src/app.py` (lines 28-39). -/
def calc_standard_emi (principal annual_rate_pct : ℚ) (months : ℤ) : ℚ :=
  let P := principal
  let r := monthly_rate annual_rate_pct
  let n := months
  if n ≤ 0 then 0
  else if r = 0 then money (P / (n : ℚ))
  else
    let numerator := r * P
    let denominator := 1 - (1 + r) ^ (-n)
    money (numerator / denominator)

/-- One row of the baseline schedule (the dict appended at lines 116-122 of
`src/app.py`). -/
structure Row where
  month : ℕ
  emi : ℚ
  interest : ℚ
  principal : ℚ
  remaining : ℚ
deriving Repr, DecidableEq

/-- One row of the prepay schedule (the dict appended at lines 195-203 of
`src/app.py`). -/
structure PRow where
  month : ℕ
  emi : ℚ
  interest : ℚ
  principal : ℚ
  extra_paid : Option ℚ
  lump_paid : Option ℚ
  remaining : ℚ
deriving Repr, DecidableEq

/-- Result dict of `simulate_schedule` (lines 123-128 of `src/app.py`). -/
structure SimResult where
  schedule : List Row
  months : ℕ
  total_interest : ℚ
  total_paid : ℚ
deriving Repr, DecidableEq

/-- Result dict of `simulate_with_prepay` (lines 205-210 of `src/app.py`). -/
structure PrepResult where
  schedule : List PRow
  months : ℕ
  total_interest : ℚ
  total_paid : ℚ
deriving Repr, DecidableEq

/-- Outcome of one iteration of a simulation `while` loop: continue with a new
state, stop (balance at or below the 0.005 epsilon), or raise. -/
inductive StepRes (σ : Type) where
  | next (s : σ)
  | done
  | fail (msg : String)
deriving Repr, DecidableEq

/-- Drive a loop step for at most `fuel` iterations (the Python loops bound
`month < 2000`, so the simulations call this with fuel 2000 from month 0). -/
def runLoop {σ : Type} (step : σ → StepRes σ) : ℕ → σ → Except String σ
  | 0, s => .ok s
  | fuel + 1, s =>
    match step s with
    | .next s' => runLoop step fuel s'
    | .done => .ok s
    | .fail e => .error e

/-- Total version of a loop step, used to talk about the trace of states a
loop visits: a `done` or `fail` state is frozen. -/
def forceStep {σ : Type} (step : σ → StepRes σ) (s : σ) : σ :=
  match step s with
  | .next s' => s'
  | .done => s
  | .fail _ => s

/-- Mutable state of the `simulate_schedule` loop (lines 99-102 of
`src/app.py`); the EMI is immutable there, so it is a parameter of the step. -/
structure SimState where
  month : ℕ
  interest_total : ℚ
  remaining : ℚ
  schedule : List Row
deriving Repr, DecidableEq

/-- Loop body of `simulate_schedule` (lines 104-122 of `src/app.py`),
reached when the guard holds and `principal_component > 0`. -/
def simBody (r emi : ℚ) (s : SimState) : SimState :=
  let month := s.month + 1
  let interest := s.remaining * r
  let principal_component := emi - interest
  let emi_for_month :=
    if principal_component > s.remaining then interest + s.remaining else emi
  let principal_component :=
    if principal_component > s.remaining then s.remaining else principal_component
  let remaining := s.remaining - principal_component
  { month := month
    interest_total := s.interest_total + interest
    remaining := remaining
    schedule := s.schedule ++ [{
      month := month
      emi := money emi_for_month
      interest := money interest
      principal := money principal_component
      remaining := money (max remaining 0) }] }

/-- One iteration of the `simulate_schedule` loop (lines 103-122 of
`src/app.py`): guard `remaining > 0.005`, raise when the EMI does not cover
the accrued interest, otherwise run the body. -/
def simStep (r emi : ℚ) (s : SimState) : StepRes SimState :=
  if s.remaining > 1/200 then
    let interest := s.remaining * r
    let principal_component := emi - interest
    if principal_component ≤ 0 then
      .fail "EMI does not cover interest; check inputs."
    else
      .next (simBody r emi s)
  else
    .done

/-- Initial loop state of `simulate_schedule` (lines 99-102 of `src/app.py`). -/
def initState (P : ℚ) : SimState :=
  { month := 0, interest_total := 0, remaining := P, schedule := [] }

/-- Build the result dict of `simulate_schedule` (lines 123-128 of
`src/app.py`) from the final loop state. -/
def mkResult (s : SimState) : SimResult :=
  { schedule := s.schedule
    months := s.month
    total_interest := money s.interest_total
    total_paid := money ((s.schedule.map Row.emi).sum) }

/-- `starting_emi or calc_standard_emi(P, rate, n)` at lines 98 and 156 of
`src/app.py`: Python's `or` falls back when `starting_emi` is `None` **or**
zero (`Decimal('0')` is falsy). -/
def resolveEmi (P annual_rate_pct : ℚ) (n : ℤ) (starting_emi : Option ℚ) : ℚ :=
  match starting_emi with
  | none => calc_standard_emi P annual_rate_pct n
  | some e => if e = 0 then calc_standard_emi P annual_rate_pct n else e

/-- `simulate_schedule` from `src/app.py` (lines 94-128). -/
def simulate_schedule (principal annual_rate_pct : ℚ) (months : ℤ)
    (starting_emi : Option ℚ) : Except String SimResult :=
  let P := principal
  let r := monthly_rate annual_rate_pct
  let emi := resolveEmi P annual_rate_pct months starting_emi
  (runLoop (simStep r emi) 2000 (initState P)).map mkResult

/-- `is_prepay_event` from `src/app.py` (lines 130-144). -/
def is_prepay_event (month_index start_after_months : ℤ)
    (frequency : String) : Bool :=
  if month_index < 1 + start_after_months then false
  else
    let offset_index := month_index - start_after_months
    if frequency = "monthly" then true
    else if frequency = "quarterly" then (offset_index - 1) % 3 == 0
    else if frequency = "half-yearly" then (offset_index - 1) % 6 == 0
    else if frequency = "yearly" then (offset_index - 1) % 12 == 0
    else if frequency = "once" then offset_index == 1
    else false

/-- The annual EMI step-up of `simulate_with_prepay` (lines 166-168 of
`src/app.py`): at month > 1 with (month-1) % 12 == 0 and a nonzero increase,
the EMI is multiplied by (1 + inc_pct) and re-quantized to 2 decimals. -/
def stepUpEmi (inc_pct : ℚ) (month : ℕ) (emi : ℚ) : ℚ :=
  if 1 < month ∧ ((month : ℤ) - 1) % 12 = 0 ∧ inc_pct ≠ 0 then
    money (emi * (1 + inc_pct))
  else emi

/-- Mutable state of the `simulate_with_prepay` loop (lines 156-163 of
`src/app.py`): the EMI, lump and extra amounts are mutated by the loop. -/
structure PrepState where
  emi : ℚ
  lump : ℚ
  extra : ℚ
  month : ℕ
  interest_total : ℚ
  remaining : ℚ
  schedule : List PRow
deriving Repr, DecidableEq

/-- Loop body of `simulate_with_prepay` (lines 165-203 of `src/app.py`),
reached when the guard holds and `principal_component > 0`: EMI step-up,
interest/principal split with the `>=` clamp, then the optional lump-sum and
extra-EMI prepayments (lump first, extra on the balance left after it, each
capped at the balance and zeroed afterwards when frequency is `once`). -/
def prepBody (r inc_pct : ℚ) (start_after_months : ℤ) (frequency : String)
    (s : PrepState) : PrepState :=
  let month := s.month + 1
  let emi := stepUpEmi inc_pct month s.emi
  let interest := s.remaining * r
  let principal_component := emi - interest
  let emi_for_month :=
    if principal_component ≥ s.remaining then interest + s.remaining else emi
  let principal_component :=
    if principal_component ≥ s.remaining then s.remaining else principal_component
  let remaining := s.remaining - principal_component
  let fires := is_prepay_event (month : ℤ) start_after_months frequency
  let pay_lump := if fires = true ∧ s.lump > 0 then min s.lump remaining else 0
  let lump_paid : Option ℚ :=
    if fires = true ∧ s.lump > 0 then some (money pay_lump) else none
  let lump := if fires = true ∧ s.lump > 0 ∧ frequency = "once" then 0 else s.lump
  let remaining := remaining - pay_lump
  let pay_extra := if fires = true ∧ s.extra > 0 then min s.extra remaining else 0
  let extra_paid : Option ℚ :=
    if fires = true ∧ s.extra > 0 then some (money pay_extra) else none
  let extra := if fires = true ∧ s.extra > 0 ∧ frequency = "once" then 0 else s.extra
  let remaining := remaining - pay_extra
  { emi := emi
    lump := lump
    extra := extra
    month := month
    interest_total := s.interest_total + interest
    remaining := remaining
    schedule := s.schedule ++ [{
      month := month
      emi := money emi_for_month
      interest := money interest
      principal := money principal_component
      extra_paid := extra_paid
      lump_paid := lump_paid
      remaining := money (max remaining 0) }] }

/-- One iteration of the `simulate_with_prepay` loop (lines 164-203 of
`src/app.py`). -/
def prepStep (r inc_pct : ℚ) (start_after_months : ℤ) (frequency : String)
    (s : PrepState) : StepRes PrepState :=
  if s.remaining > 1/200 then
    let emi := stepUpEmi inc_pct (s.month + 1) s.emi
    let interest := s.remaining * r
    let principal_component := emi - interest
    if principal_component ≤ 0 then
      .fail "EMI too small to cover interest."
    else
      .next (prepBody r inc_pct start_after_months frequency s)
  else
    .done

/-- Initial loop state of `simulate_with_prepay` (lines 156-163 of
`src/app.py`). -/
def initPrepState (emi lump extra P : ℚ) : PrepState :=
  { emi := emi, lump := lump, extra := extra, month := 0,
    interest_total := 0, remaining := P, schedule := [] }

/-- Build the result dict of `simulate_with_prepay` (lines 204-210 of
`src/app.py`) from the final loop state; `s.get('extra_paid') or Decimal('0')`
is `Option.getD _ 0` (a stored `some 0` is falsy in Python and also yields 0). -/
def mkPrepResult (s : PrepState) : PrepResult :=
  { schedule := s.schedule
    months := s.month
    total_interest := money s.interest_total
    total_paid := money ((s.schedule.map PRow.emi).sum
      + (s.schedule.map (fun row => row.extra_paid.getD 0)).sum
      + (s.schedule.map (fun row => row.lump_paid.getD 0)).sum) }

/-- `simulate_with_prepay` from `src/app.py` (lines 146-210). -/
def simulate_with_prepay (principal annual_rate_pct : ℚ) (months : ℤ)
    (base_emi : Option ℚ) (extra_emi_amount lump_sum_amount
    emi_increase_pct_per_year : ℚ) (start_after_months : ℤ)
    (frequency : String) : Except String PrepResult :=
  let P := principal
  let r := monthly_rate annual_rate_pct
  let emi := resolveEmi P annual_rate_pct months base_emi
  let inc_pct := emi_increase_pct_per_year / 100
  (runLoop (prepStep r inc_pct start_after_months frequency) 2000
    (initPrepState emi lump_sum_amount extra_emi_amount P)).map mkPrepResult

/-! ### Generic lemmas about the bounded loop driver -/

theorem runLoop_done {σ : Type} (step : σ → StepRes σ) (fuel : ℕ) (s : σ)
    (h : step s = .done) : runLoop step fuel s = .ok s := by
  cases fuel with
  | zero => rfl
  | succ n => simp [runLoop, h]

theorem runLoop_inv {σ : Type} (step : σ → StepRes σ) (I : σ → Prop)
    (hstep : ∀ s s', I s → step s = .next s' → I s') :
    ∀ fuel s s', I s → runLoop step fuel s = .ok s' → I s' := by
  intro fuel
  induction fuel with
  | zero =>
    intro s s' hI h
    simp only [runLoop] at h
    cases h
    exact hI
  | succ n ih =>
    intro s s' hI h
    rcases hs : step s with s2 | _ | e <;> simp only [runLoop, hs] at h
    · exact ih s2 s' (hstep s s2 hI hs) h
    · cases h
      exact hI
    · exact absurd h (by simp)

theorem forceStep_next {σ : Type} (step : σ → StepRes σ) (s s' : σ)
    (h : step s = .next s') : forceStep step s = s' := by
  simp [forceStep, h]

theorem forceStep_done {σ : Type} (step : σ → StepRes σ) (s : σ)
    (h : step s = .done) : forceStep step s = s := by
  simp [forceStep, h]

theorem runLoop_error_iff {σ : Type} (step : σ → StepRes σ) :
    ∀ (fuel : ℕ) (s : σ),
      (∃ e, runLoop step fuel s = .error e) ↔
      (∃ k, k < fuel ∧ ∃ e, step ((forceStep step)^[k] s) = .fail e) := by
  intro fuel
  induction fuel with
  | zero =>
    intro s
    simp [runLoop]
  | succ n ih =>
    intro s
    rcases hs : step s with s2 | _ | e
    · have hforce : forceStep step s = s2 := forceStep_next step s s2 hs
      constructor
      · rintro ⟨e, he⟩
        simp only [runLoop, hs] at he
        obtain ⟨k, hk, e2, he2⟩ := (ih s2).mp ⟨e, he⟩
        refine ⟨k + 1, by omega, e2, ?_⟩
        rwa [Function.iterate_succ_apply, hforce]
      · rintro ⟨k, hk, e, he⟩
        cases k with
        | zero =>
          simp only [Function.iterate_zero_apply] at he
          rw [hs] at he
          exact absurd he (by simp)
        | succ k =>
          rw [Function.iterate_succ_apply, hforce] at he
          obtain ⟨e2, he2⟩ := (ih s2).mpr ⟨k, by omega, e, he⟩
          exact ⟨e2, by simp only [runLoop, hs]; exact he2⟩
    · have hfix : ∀ k, (forceStep step)^[k] s = s :=
        fun k => Function.iterate_fixed (forceStep_done step s hs) k
      constructor
      · rintro ⟨e, he⟩
        rw [runLoop_done step _ s hs] at he
        exact absurd he (by simp)
      · rintro ⟨k, hk, e, he⟩
        rw [hfix k, hs] at he
        exact absurd he (by simp)
    · constructor
      · intro _
        exact ⟨0, by omega, e, by simpa using hs⟩
      · intro _
        exact ⟨e, by simp only [runLoop, hs]⟩

theorem runLoop_bound {σ : Type} (step : σ → StepRes σ) (mo : σ → ℕ) (re : σ → ℚ)
    (hnext : ∀ s s', step s = .next s' → mo s' = mo s + 1)
    (hdone : ∀ s, step s = .done → re s ≤ 1/200) :
    ∀ fuel s s', runLoop step fuel s = .ok s' →
      mo s' ≤ mo s + fuel ∧ (mo s' < mo s + fuel → re s' ≤ 1/200) := by
  intro fuel
  induction fuel with
  | zero =>
    intro s s' h
    simp only [runLoop] at h
    cases h
    exact ⟨le_refl _, fun hlt => absurd hlt (by omega)⟩
  | succ n ih =>
    intro s s' h
    rcases hs : step s with s2 | _ | e <;> simp only [runLoop, hs] at h
    · obtain ⟨h1, h2⟩ := ih s2 s' h
      have hm := hnext s s2 hs
      exact ⟨by omega, fun hlt => h2 (by omega)⟩
    · cases h
      exact ⟨by omega, fun _ => hdone s hs⟩
    · exact absurd h (by simp)

theorem except_map_error_iff {α β : Type} (f : α → β) (x : Except String α) :
    (∃ e, x.map f = .error e) ↔ (∃ e, x = .error e) := by
  cases x <;> simp [Except.map]

theorem except_map_ok_iff {α β : Type} (f : α → β) (x : Except String α) (b : β) :
    x.map f = .ok b ↔ ∃ a, x = .ok a ∧ b = f a := by
  cases x <;> simp [Except.map, eq_comm]

/-! ### Inversion lemmas for the two loop steps -/

theorem simStep_next_iff (r emi : ℚ) (s s' : SimState) :
    simStep r emi s = .next s' ↔
      (s.remaining > 1/200 ∧ ¬(emi - s.remaining * r ≤ 0) ∧
        s' = simBody r emi s) := by
  simp only [simStep]
  split_ifs with h1 h2
  · constructor
    · intro h
      exact h.elim
    · rintro ⟨-, hpc, -⟩
      exact absurd h2 hpc
  · constructor
    · intro h
      injection h with h
      exact ⟨h1, h2, h.symm⟩
    · rintro ⟨-, -, rfl⟩
      rfl
  · constructor
    · intro h
      exact h.elim
    · rintro ⟨hrem, -, -⟩
      exact absurd hrem h1

theorem simStep_fail_iff (r emi : ℚ) (s : SimState) :
    (∃ e, simStep r emi s = .fail e) ↔
      (s.remaining > 1/200 ∧ emi - s.remaining * r ≤ 0) := by
  simp only [simStep]
  split_ifs with h1 h2
  · constructor
    · intro _
      exact ⟨h1, h2⟩
    · intro _
      exact ⟨_, rfl⟩
  · constructor
    · rintro ⟨e, he⟩
      exact he.elim
    · rintro ⟨-, hpc⟩
      exact absurd hpc h2
  · constructor
    · rintro ⟨e, he⟩
      exact he.elim
    · rintro ⟨hrem, -⟩
      exact absurd hrem h1

theorem simStep_done_iff (r emi : ℚ) (s : SimState) :
    simStep r emi s = .done ↔ ¬(s.remaining > 1/200) := by
  simp only [simStep]
  split_ifs with h1 h2
  · constructor
    · intro h
      exact h.elim
    · intro h
      exact absurd h1 h
  · constructor
    · intro h
      exact h.elim
    · intro h
      exact absurd h1 h
  · exact iff_of_true rfl h1

theorem prepStep_next_iff (r inc_pct : ℚ) (saf : ℤ) (freq : String)
    (s s' : PrepState) :
    prepStep r inc_pct saf freq s = .next s' ↔
      (s.remaining > 1/200 ∧
        ¬(stepUpEmi inc_pct (s.month + 1) s.emi - s.remaining * r ≤ 0) ∧
        s' = prepBody r inc_pct saf freq s) := by
  simp only [prepStep]
  split_ifs with h1 h2
  · constructor
    · intro h
      exact h.elim
    · rintro ⟨-, hpc, -⟩
      exact absurd h2 hpc
  · constructor
    · intro h
      injection h with h
      exact ⟨h1, h2, h.symm⟩
    · rintro ⟨-, -, rfl⟩
      rfl
  · constructor
    · intro h
      exact h.elim
    · rintro ⟨hrem, -, -⟩
      exact absurd hrem h1

theorem prepStep_fail_iff (r inc_pct : ℚ) (saf : ℤ) (freq : String)
    (s : PrepState) :
    (∃ e, prepStep r inc_pct saf freq s = .fail e) ↔
      (s.remaining > 1/200 ∧
        stepUpEmi inc_pct (s.month + 1) s.emi - s.remaining * r ≤ 0) := by
  simp only [prepStep]
  split_ifs with h1 h2
  · constructor
    · intro _
      exact ⟨h1, h2⟩
    · intro _
      exact ⟨_, rfl⟩
  · constructor
    · rintro ⟨e, he⟩
      exact he.elim
    · rintro ⟨-, hpc⟩
      exact absurd hpc h2
  · constructor
    · rintro ⟨e, he⟩
      exact he.elim
    · rintro ⟨hrem, -⟩
      exact absurd hrem h1

theorem prepStep_done_iff (r inc_pct : ℚ) (saf : ℤ) (freq : String)
    (s : PrepState) :
    prepStep r inc_pct saf freq s = .done ↔ ¬(s.remaining > 1/200) := by
  simp only [prepStep]
  split_ifs with h1 h2
  · constructor
    · intro h
      exact h.elim
    · intro h
      exact absurd h1 h
  · constructor
    · intro h
      exact h.elim
    · intro h
      exact absurd h1 h
  · exact iff_of_true rfl h1

/-! ### Elementary properties of the half-up rounding -/

theorem roundHalfUp_sub_abs (y : ℚ) : |((roundHalfUp y : ℤ) : ℚ) - y| ≤ 1/2 := by
  unfold roundHalfUp
  split_ifs with h
  · rw [abs_le]
    constructor
    · have hlt := Int.lt_floor_add_one (y + 1/2)
      linarith
    · have hle := Int.floor_le (y + 1/2)
      linarith
  · rw [abs_le]
    have hle := Int.floor_le (1/2 - y)
    have hlt := Int.lt_floor_add_one (1/2 - y)
    push_cast
    constructor <;> linarith

theorem money_sub_abs (x : ℚ) : |money x - x| ≤ 1/200 := by
  unfold money
  have h := roundHalfUp_sub_abs (x * 100)
  rw [abs_le] at h ⊢
  obtain ⟨h1, h2⟩ := h
  constructor
  · linarith
  · linarith

theorem roundHalfUp_mono {x y : ℚ} (h : x ≤ y) :
    roundHalfUp x ≤ roundHalfUp y := by
  unfold roundHalfUp
  split_ifs with hx hy
  · exact Int.floor_le_floor (by linarith)
  · exact absurd (hx.trans h) hy
  · have h1 : (0:ℤ) ≤ ⌊(1:ℚ)/2 - x⌋ :=
      Int.floor_nonneg.mpr (by linarith [not_le.mp hx])
    have h2 : (0:ℤ) ≤ ⌊y + 1/2⌋ := Int.floor_nonneg.mpr (by linarith)
    omega
  · rw [neg_le_neg_iff]
    exact Int.floor_le_floor (by linarith)

theorem money_mono {x y : ℚ} (h : x ≤ y) : money x ≤ money y := by
  unfold money
  have hr := roundHalfUp_mono (show x * 100 ≤ y * 100 by linarith)
  have hc : ((roundHalfUp (x * 100) : ℤ) : ℚ) ≤ ((roundHalfUp (y * 100) : ℤ) : ℚ) := by
    exact_mod_cast hr
  linarith

theorem money_zero : money 0 = 0 := by with_unfolding_all rfl

/-! ### Claim theorems -/

/-- C6: `is_prepay_event` with frequency `"once"` returns true for exactly one
month index, namely `start_after_months + 1`, and false for every other month
index (proved for all integer arguments, in particular for every
`start_after_months ≥ 0` and every month index ≥ 1). -/
theorem c6_once_fires_exactly_once (month_index start_after_months : ℤ) :
    is_prepay_event month_index start_after_months "once" = true ↔
      month_index = start_after_months + 1 := by
  simp only [is_prepay_event]
  split_ifs with h hm hq hh hy
  · constructor
    · intro hf
      exact absurd hf (by simp)
    · intro he
      exact absurd he (by omega)
  · exact absurd hm (by decide)
  · exact absurd hq (by decide)
  · exact absurd hh (by decide)
  · exact absurd hy (by decide)
  · simp only [beq_iff_eq]
    omega

/-- C8: `calc_standard_emi` returns 0 for months ≤ 0; for positive months and
zero annual rate it returns principal/months rounded half-up to 2 decimals;
otherwise it returns (rate×P)/(1-(1+rate)^(-n)) with rate = annual/1200,
rounded half-up to 2 decimals, in exact (rational) arithmetic. -/
theorem c8_standard_emi_formula (P rate : ℚ) (n : ℤ) :
    (n ≤ 0 → calc_standard_emi P rate n = 0) ∧
    (0 < n → rate = 0 → calc_standard_emi P rate n = money (P / (n : ℚ))) ∧
    (0 < n → rate ≠ 0 →
      calc_standard_emi P rate n =
        money ((rate / 1200 * P) / (1 - (1 + rate / 1200) ^ (-n)))) := by
  refine ⟨?_, ?_, ?_⟩
  · intro h
    simp only [calc_standard_emi]
    rw [if_pos h]
  · intro hn hr
    simp only [calc_standard_emi, monthly_rate]
    rw [if_neg (by omega), if_pos (by rw [hr]; norm_num)]
  · intro hn hr
    simp only [calc_standard_emi, monthly_rate]
    rw [if_neg (by omega), if_neg (by simp [div_eq_zero_iff, hr])]
    norm_num

/-- Witness for C8 at the spec's own scenario: principal 100000, rate 10,
12 months gives EMI 8791.59. -/
theorem c8_standard_emi_formula_witness :
    calc_standard_emi 100000 10 12 =
      money ((10 / 1200 * 100000) / (1 - (1 + (10:ℚ) / 1200) ^ (-(12:ℤ)))) ∧
    calc_standard_emi 100000 10 12 = 879159 / 100 :=
  ⟨(c8_standard_emi_formula 100000 10 12).2.2 (by norm_num) (by norm_num),
   by with_unfolding_all rfl⟩

/-- C10: for any principal ≤ 0.005 (in particular zero and negative values)
both simulators return an empty schedule with 0 months, 0 total interest and
0 total paid, without raising: the loop guard fails at once. -/
theorem c10_tiny_principal_returns_empty (P rate : ℚ) (n : ℤ)
    (e : Option ℚ) (extra lump inc : ℚ) (saf : ℤ) (freq : String)
    (hP : P ≤ 1/200) :
    simulate_schedule P rate n e =
      .ok { schedule := [], months := 0, total_interest := 0, total_paid := 0 } ∧
    simulate_with_prepay P rate n e extra lump inc saf freq =
      .ok { schedule := [], months := 0, total_interest := 0, total_paid := 0 } := by
  have h1 : simStep (monthly_rate rate) (resolveEmi P rate n e)
      (initState P) = .done := by
    rw [simStep_done_iff]
    simp only [initState, not_lt]
    exact hP
  have h2 : prepStep (monthly_rate rate) (inc / 100) saf freq
      (initPrepState (resolveEmi P rate n e) lump extra P) = .done := by
    rw [prepStep_done_iff]
    simp only [initPrepState, not_lt]
    exact hP
  constructor
  · simp only [simulate_schedule]
    rw [runLoop_done _ _ _ h1]
    simp [Except.map, mkResult, initState, money_zero]
  · simp only [simulate_with_prepay]
    rw [runLoop_done _ _ _ h2]
    simp [Except.map, mkPrepResult, initPrepState, money_zero]

/-- Witness for C10 at principal 0. -/
theorem c10_witness :
    simulate_schedule 0 0 0 none =
      .ok { schedule := [], months := 0, total_interest := 0, total_paid := 0 } ∧
    simulate_with_prepay 0 0 0 none 0 0 0 0 "monthly" =
      .ok { schedule := [], months := 0, total_interest := 0, total_paid := 0 } :=
  c10_tiny_principal_returns_empty 0 0 0 none 0 0 0 0 "monthly" (by norm_num)

/-- C1 fails as stated: with principal 10, annual rate 0.54, a supplied EMI of
5.01 (months argument 2, irrelevant to the loop), the schedule has two rows
whose stored (rounded) interest portions sum to 0.00, while the returned
totalInterest (the rounding of the exact interest sum 0.006747525) is 0.01. -/
theorem c1_counterexample :
    (simulate_schedule 10 (27/50) 2 (some (501/100))).map
        (fun res => ((res.schedule.map Row.interest).sum, res.total_interest))
      = .ok (0, 1/100) ∧ (0 : ℚ) ≠ 1/100 := by
  refine ⟨by with_unfolding_all rfl, by norm_num⟩

/-- C5 fails as stated: a supplied starting EMI of 0 is falsy in Python, so
`starting_emi or calc_standard_emi(...)` falls back to the computed EMI
507.51 instead of using the supplied 0 (which would have raised). -/
theorem c5_counterexample :
    (simulate_schedule 1000 12 2 (some 0)).map
        (fun res => res.schedule.head?.map Row.emi) = .ok (some (50751/100)) ∧
    simulate_schedule 1000 12 2 (some 0) = simulate_schedule 1000 12 2 none ∧
    (50751/100 : ℚ) ≠ 0 := by
  refine ⟨by with_unfolding_all rfl, by with_unfolding_all rfl, by norm_num⟩

/-- C7 fails as stated for a principal that is not a whole number of cents:
with principal 0.008, rate 0 and supplied EMI 0.0005, the first row's stored
remaining balance is money(0.0075) = 0.01 > 0.008 = the initial balance. -/
theorem c7_counterexample :
    (simulate_schedule (1/125) 0 1 (some (1/2000))).map
        (fun res => res.schedule.head?.map Row.remaining) = .ok (some (1/100)) ∧
    ¬((1/100 : ℚ) ≤ 1/125) := by
  refine ⟨by with_unfolding_all rfl, by norm_num⟩

/-- C5 (amended): `simulate_schedule` runs the loop with the supplied
startingEmi as the fixed EMI whenever that value is nonzero; a supplied zero
is falsy in Python's `or`, so it falls back to `calc_standard_emi` exactly as
an omitted startingEmi does. -/
theorem c5_amended_supplied_emi (P rate : ℚ) (n : ℤ) (e : ℚ) :
    (e ≠ 0 → simulate_schedule P rate n (some e) =
      (runLoop (simStep (monthly_rate rate) e) 2000 (initState P)).map mkResult) ∧
    simulate_schedule P rate n (some 0) = simulate_schedule P rate n none ∧
    simulate_schedule P rate n none =
      (runLoop (simStep (monthly_rate rate) (calc_standard_emi P rate n)) 2000
        (initState P)).map mkResult := by
  refine ⟨?_, ?_, ?_⟩
  · intro he
    simp only [simulate_schedule, resolveEmi]
    rw [if_neg he]
  · simp [simulate_schedule, resolveEmi]
  · simp only [simulate_schedule, resolveEmi]

/-- Witness for the amended C5 with a nonzero supplied EMI. -/
theorem c5_amended_supplied_emi_witness :
    simulate_schedule 0 0 0 (some 1) =
      (runLoop (simStep (monthly_rate 0) 1) 2000 (initState 0)).map mkResult :=
  (c5_amended_supplied_emi 0 0 0 1).1 (by norm_num)

theorem simBody_month (r emi : ℚ) (s : SimState) :
    (simBody r emi s).month = s.month + 1 := by
  simp [simBody]

theorem prepBody_month (r inc_pct : ℚ) (saf : ℤ) (freq : String) (s : PrepState) :
    (prepBody r inc_pct saf freq s).month = s.month + 1 := by
  simp [prepBody]

/-- C9: in `simulate_with_prepay`, the EMI is multiplied by (1 + pct/100) and
re-rounded half-up to 2 decimals exactly at months m with m > 1 and
(m - 1) % 12 == 0 (when pct ≠ 0), it is left unchanged in every other month,
and the updated EMI is the one used for that month's interest/principal
split and recorded in the new loop state. -/
theorem c9_emi_stepup_timing (r pct : ℚ) (saf : ℤ) (freq : String)
    (s : PrepState) :
    ((1 < s.month + 1 ∧ (((s.month + 1 : ℕ) : ℤ) - 1) % 12 = 0 ∧ pct ≠ 0) →
      stepUpEmi (pct / 100) (s.month + 1) s.emi =
        money (s.emi * (1 + pct / 100))) ∧
    (¬(1 < s.month + 1 ∧ (((s.month + 1 : ℕ) : ℤ) - 1) % 12 = 0 ∧ pct ≠ 0) →
      stepUpEmi (pct / 100) (s.month + 1) s.emi = s.emi) ∧
    (∀ s', prepStep r (pct / 100) saf freq s = .next s' →
      s'.emi = stepUpEmi (pct / 100) (s.month + 1) s.emi ∧
      ∃ row, s'.schedule = s.schedule ++ [row] ∧
        row.interest = money (s.remaining * r) ∧
        row.principal = money (min (stepUpEmi (pct / 100) (s.month + 1) s.emi
          - s.remaining * r) s.remaining)) := by
  refine ⟨?_, ?_, ?_⟩
  · rintro ⟨h1, h2, h3⟩
    simp only [stepUpEmi]
    rw [if_pos ⟨h1, h2, div_ne_zero h3 (by norm_num)⟩]
  · intro hn
    simp only [stepUpEmi]
    rw [if_neg]
    intro hc
    exact hn ⟨hc.1, hc.2.1, fun h0 => hc.2.2 (by rw [h0]; norm_num)⟩
  · intro s' hs'
    rw [prepStep_next_iff] at hs'
    obtain ⟨-, hpc, rfl⟩ := hs'
    constructor
    · simp [prepBody]
    · simp only [prepBody]
      refine ⟨_, rfl, rfl, ?_⟩
      set pc := stepUpEmi (pct / 100) (s.month + 1) s.emi - s.remaining * r with hpcdef
      rcases le_or_lt s.remaining pc with h | h
      · show money (if pc ≥ s.remaining then s.remaining else pc) =
          money (min pc s.remaining)
        rw [if_pos h, min_eq_right h]
      · show money (if pc ≥ s.remaining then s.remaining else pc) =
          money (min pc s.remaining)
        rw [if_neg (not_le.mpr h), min_eq_left (le_of_lt h)]

/-- Witness for C9: at month 13 (= 12+1) with a 100 percent annual increase,
the EMI 1 is stepped up to money(1 * (1 + 100/100)) = 2 before the split, and
the stepped-up EMI is recorded in the next loop state. -/
theorem c9_emi_stepup_timing_witness :
    stepUpEmi ((100:ℚ) / 100) (12 + 1) 1 = money (1 * (1 + (100:ℚ) / 100)) ∧
    (prepBody 0 ((100:ℚ) / 100) 0 "monthly" ⟨1, 0, 0, 12, 0, 1, []⟩).emi =
      stepUpEmi ((100:ℚ) / 100) (12 + 1) 1 :=
  ⟨(c9_emi_stepup_timing 0 100 0 "monthly" ⟨1, 0, 0, 12, 0, 1, []⟩).1
      ⟨by norm_num, by decide, by norm_num⟩,
   ((c9_emi_stepup_timing 0 100 0 "monthly" ⟨1, 0, 0, 12, 0, 1, []⟩).2.2 _
      (by with_unfolding_all rfl)).1⟩

theorem sim_getLast_inv (r emi : ℚ) (fuel : ℕ) (s s' : SimState)
    (hI : ∀ row ∈ s.schedule.getLast?, row.remaining = money (max s.remaining 0))
    (h : runLoop (simStep r emi) fuel s = .ok s') :
    ∀ row ∈ s'.schedule.getLast?, row.remaining = money (max s'.remaining 0) := by
  refine runLoop_inv (simStep r emi)
    (fun t => ∀ row ∈ t.schedule.getLast?, row.remaining = money (max t.remaining 0))
    ?_ fuel s s' hI h
  intro t t' hIt hstep
  rw [simStep_next_iff] at hstep
  obtain ⟨-, -, rfl⟩ := hstep
  intro row hrow
  simp only [simBody, List.getLast?_concat, Option.mem_def, Option.some.injEq] at hrow
  subst hrow
  simp only [simBody]

theorem prep_getLast_inv (r inc_pct : ℚ) (saf : ℤ) (freq : String)
    (fuel : ℕ) (s s' : PrepState)
    (hI : ∀ row ∈ s.schedule.getLast?, row.remaining = money (max s.remaining 0))
    (h : runLoop (prepStep r inc_pct saf freq) fuel s = .ok s') :
    ∀ row ∈ s'.schedule.getLast?, row.remaining = money (max s'.remaining 0) := by
  refine runLoop_inv (prepStep r inc_pct saf freq)
    (fun t => ∀ row ∈ t.schedule.getLast?, row.remaining = money (max t.remaining 0))
    ?_ fuel s s' hI h
  intro t t' hIt hstep
  rw [prepStep_next_iff] at hstep
  obtain ⟨-, -, rfl⟩ := hstep
  intro row hrow
  simp only [prepBody, List.getLast?_concat, Option.mem_def, Option.some.injEq] at hrow
  subst hrow
  simp only [prepBody]

/-- C4: both loops run at most 2000 iterations (the simulations are total
functions of their inputs, so they terminate); whenever a loop stops in
strictly fewer than 2000 iterations the exit balance is ≤ 0.005; and the
final row always stores money(max(remaining, 0)) of that exit balance, so
for such runs the recorded final remainingBalance is the rounding of a value
≤ 0.005. -/
theorem c4_iteration_cap_and_final_balance (P rate : ℚ) (n : ℤ) (e : Option ℚ)
    (ex lu pct : ℚ) (saf : ℤ) (freq : String) :
    (∀ s', runLoop (simStep (monthly_rate rate) (resolveEmi P rate n e)) 2000
        (initState P) = .ok s' →
      s'.month ≤ 2000 ∧ (s'.month < 2000 → s'.remaining ≤ 1/200) ∧
      ∀ row ∈ s'.schedule.getLast?, row.remaining = money (max s'.remaining 0)) ∧
    (∀ res, simulate_schedule P rate n e = .ok res → res.months ≤ 2000) ∧
    (∀ s', runLoop (prepStep (monthly_rate rate) (pct / 100) saf freq) 2000
        (initPrepState (resolveEmi P rate n e) lu ex P) = .ok s' →
      s'.month ≤ 2000 ∧ (s'.month < 2000 → s'.remaining ≤ 1/200) ∧
      ∀ row ∈ s'.schedule.getLast?, row.remaining = money (max s'.remaining 0)) ∧
    (∀ res, simulate_with_prepay P rate n e ex lu pct saf freq = .ok res →
      res.months ≤ 2000) := by
  have hnextS : ∀ s s', simStep (monthly_rate rate) (resolveEmi P rate n e) s
      = .next s' → s'.month = s.month + 1 := by
    intro s s' h
    rw [simStep_next_iff] at h
    obtain ⟨-, -, rfl⟩ := h
    exact simBody_month _ _ _
  have hdoneS : ∀ s : SimState, simStep (monthly_rate rate) (resolveEmi P rate n e) s
      = .done → s.remaining ≤ 1/200 := by
    intro s h
    rw [simStep_done_iff] at h
    exact le_of_not_lt h
  have hboundS := runLoop_bound _ SimState.month SimState.remaining hnextS hdoneS
    2000 (initState P)
  have hnextP : ∀ s s', prepStep (monthly_rate rate) (pct / 100) saf freq s
      = .next s' → s'.month = s.month + 1 := by
    intro s s' h
    rw [prepStep_next_iff] at h
    obtain ⟨-, -, rfl⟩ := h
    exact prepBody_month _ _ _ _ _
  have hdoneP : ∀ s : PrepState, prepStep (monthly_rate rate) (pct / 100) saf freq s
      = .done → s.remaining ≤ 1/200 := by
    intro s h
    rw [prepStep_done_iff] at h
    exact le_of_not_lt h
  have hboundP := runLoop_bound _ PrepState.month PrepState.remaining hnextP hdoneP
    2000 (initPrepState (resolveEmi P rate n e) lu ex P)
  refine ⟨?_, ?_, ?_, ?_⟩
  · intro s' h
    obtain ⟨h1, h2⟩ := hboundS s' h
    refine ⟨by simpa [initState] using h1, fun hlt => h2 (by simpa [initState] using hlt), ?_⟩
    exact sim_getLast_inv _ _ 2000 (initState P) s' (by simp [initState]) h
  · intro res h
    simp only [simulate_schedule] at h
    rw [except_map_ok_iff] at h
    obtain ⟨s', hs', rfl⟩ := h
    obtain ⟨h1, -⟩ := hboundS s' hs'
    simpa [mkResult, initState] using h1
  · intro s' h
    obtain ⟨h1, h2⟩ := hboundP s' h
    refine ⟨by simpa [initPrepState] using h1,
      fun hlt => h2 (by simpa [initPrepState] using hlt), ?_⟩
    exact prep_getLast_inv _ _ _ _ 2000 _ s' (by simp [initPrepState]) h
  · intro res h
    simp only [simulate_with_prepay] at h
    rw [except_map_ok_iff] at h
    obtain ⟨s', hs', rfl⟩ := h
    obtain ⟨h1, -⟩ := hboundP s' hs'
    simpa [mkPrepResult, initPrepState] using h1

/-- Witness for C4 at principal 0 (loop exits immediately with month 0). -/
theorem c4_iteration_cap_witness :
    ((0:ℕ) ≤ 2000 ∧ ((0:ℕ) < 2000 → (0:ℚ) ≤ 1/200) ∧
      (∀ row ∈ ([] : List Row).getLast?, row.remaining = money (max 0 0))) ∧
    (0:ℕ) ≤ 2000 ∧
    ((0:ℕ) ≤ 2000 ∧ ((0:ℕ) < 2000 → (0:ℚ) ≤ 1/200) ∧
      (∀ row ∈ ([] : List PRow).getLast?, row.remaining = money (max 0 0))) ∧
    (0:ℕ) ≤ 2000 :=
  ⟨(c4_iteration_cap_and_final_balance 0 0 0 none 0 0 0 0 "monthly").1
      (initState 0) (by with_unfolding_all rfl),
   (c4_iteration_cap_and_final_balance 0 0 0 none 0 0 0 0 "monthly").2.1
      { schedule := [], months := 0, total_interest := 0, total_paid := 0 }
      (by with_unfolding_all rfl),
   (c4_iteration_cap_and_final_balance 0 0 0 none 0 0 0 0 "monthly").2.2.1
      (initPrepState (resolveEmi 0 0 0 none) 0 0 0) (by with_unfolding_all rfl),
   (c4_iteration_cap_and_final_balance 0 0 0 none 0 0 0 0 "monthly").2.2.2
      { schedule := [], months := 0, total_interest := 0, total_paid := 0 }
      (by with_unfolding_all rfl)⟩

/-- State of the `simulate_schedule` loop after `k` iterations (frozen once
the loop would stop or raise). -/
def simTrace (r emi P : ℚ) (k : ℕ) : SimState :=
  (forceStep (simStep r emi))^[k] (initState P)

/-- State of the `simulate_with_prepay` loop after `k` iterations (frozen
once the loop would stop or raise). -/
def prepTrace (r inc_pct : ℚ) (saf : ℤ) (freq : String)
    (emi lump extra P : ℚ) (k : ℕ) : PrepState :=
  (forceStep (prepStep r inc_pct saf freq))^[k] (initPrepState emi lump extra P)

/-- C3: each simulator raises if and only if some reached iteration has
`principal_component = emi - remaining*rate ≤ 0` while the loop guard holds
(for the prepay loop, with the EMI after that month's step-up); the raise
happens at that iteration, and because the result type is `Except`, an
erroring run returns no schedule value at all, not even a partial one. -/
theorem c3_error_iff_nonamortizing (P rate : ℚ) (n : ℤ) (e : Option ℚ)
    (ex lu pct : ℚ) (saf : ℤ) (freq : String) :
    ((∃ msg, simulate_schedule P rate n e = .error msg) ↔
      ∃ k, k < 2000 ∧
        (simTrace (monthly_rate rate) (resolveEmi P rate n e) P k).remaining
          > 1/200 ∧
        resolveEmi P rate n e -
          (simTrace (monthly_rate rate) (resolveEmi P rate n e) P k).remaining *
            monthly_rate rate ≤ 0) ∧
    ((∃ msg, simulate_with_prepay P rate n e ex lu pct saf freq = .error msg) ↔
      ∃ k, k < 2000 ∧
        (prepTrace (monthly_rate rate) (pct / 100) saf freq
          (resolveEmi P rate n e) lu ex P k).remaining > 1/200 ∧
        stepUpEmi (pct / 100)
            ((prepTrace (monthly_rate rate) (pct / 100) saf freq
              (resolveEmi P rate n e) lu ex P k).month + 1)
            ((prepTrace (monthly_rate rate) (pct / 100) saf freq
              (resolveEmi P rate n e) lu ex P k).emi) -
          (prepTrace (monthly_rate rate) (pct / 100) saf freq
            (resolveEmi P rate n e) lu ex P k).remaining * monthly_rate rate
          ≤ 0) := by
  constructor
  · simp only [simulate_schedule]
    rw [except_map_error_iff, runLoop_error_iff]
    simp only [simTrace, simStep_fail_iff]
  · simp only [simulate_with_prepay]
    rw [except_map_error_iff, runLoop_error_iff]
    simp only [prepTrace, prepStep_fail_iff]

theorem money_max_mono {a b : ℚ} (h : a ≤ b) :
    money (max a 0) ≤ money (max b 0) :=
  money_mono (max_le_max h (le_refl 0))

theorem simBody_remaining_bounds (r emi : ℚ) (s : SimState)
    (hg : 1/200 < s.remaining) (hpc : ¬(emi - s.remaining * r ≤ 0)) :
    0 ≤ (simBody r emi s).remaining ∧
      (simBody r emi s).remaining ≤ s.remaining := by
  simp only [simBody]
  split_ifs with h
  · constructor <;> linarith
  · constructor
    · linarith [not_lt.mp h]
    · linarith [not_le.mp hpc]

theorem simBody_schedule_shape (r emi : ℚ) (t : SimState) :
    ∃ row, (simBody r emi t).schedule = t.schedule ++ [row] ∧
      row.remaining = money (max (simBody r emi t).remaining 0) := by
  simp only [simBody]
  exact ⟨_, rfl, rfl⟩

theorem prepBody_remaining_bounds (r inc_pct : ℚ) (saf : ℤ) (freq : String)
    (s : PrepState) (hg : 1/200 < s.remaining)
    (hpc : ¬(stepUpEmi inc_pct (s.month + 1) s.emi - s.remaining * r ≤ 0)) :
    0 ≤ (prepBody r inc_pct saf freq s).remaining ∧
      (prepBody r inc_pct saf freq s).remaining ≤ s.remaining := by
  simp only [prepBody]
  set pc := stepUpEmi inc_pct (s.month + 1) s.emi - s.remaining * r with hdefpc
  set pc1 := if pc ≥ s.remaining then s.remaining else pc with hdefpc1
  have h1 : 0 ≤ s.remaining - pc1 ∧ s.remaining - pc1 ≤ s.remaining := by
    rw [hdefpc1]
    split_ifs with h
    · constructor <;> linarith
    · constructor
      · linarith [not_le.mp h]
      · linarith [not_le.mp hpc]
  set rem1 := s.remaining - pc1 with hdefrem1
  set payL := if is_prepay_event ((s.month + 1 : ℕ) : ℤ) saf freq = true ∧
      s.lump > 0 then min s.lump rem1 else 0 with hdefpayL
  have h2 : 0 ≤ payL ∧ payL ≤ rem1 := by
    rw [hdefpayL]
    split_ifs with h
    · exact ⟨le_min (le_of_lt h.2) h1.1, min_le_right _ _⟩
    · exact ⟨le_refl 0, h1.1⟩
  set rem2 := rem1 - payL with hdefrem2
  set payE := if is_prepay_event ((s.month + 1 : ℕ) : ℤ) saf freq = true ∧
      s.extra > 0 then min s.extra rem2 else 0 with hdefpayE
  have h3 : 0 ≤ payE ∧ payE ≤ rem2 := by
    rw [hdefpayE]
    split_ifs with h
    · refine ⟨le_min (le_of_lt h.2) ?_, min_le_right _ _⟩
      linarith [h1.1, h2.2]
    · constructor
      · linarith
      · linarith [h1.1, h2.2]
  constructor
  · show 0 ≤ rem1 - payL - payE
    linarith [h2.2, h3.2]
  · show rem1 - payL - payE ≤ s.remaining
    linarith [h1.2, h2.1, h3.1]

theorem prepBody_schedule_shape (r inc_pct : ℚ) (saf : ℤ) (freq : String)
    (t : PrepState) :
    ∃ row, (prepBody r inc_pct saf freq t).schedule = t.schedule ++ [row] ∧
      row.remaining = money (max (prepBody r inc_pct saf freq t).remaining 0) := by
  simp only [prepBody]
  exact ⟨_, rfl, rfl⟩

/-- Invariant carried along the baseline loop: rows are non-increasing in
remaining balance, the last stored row reflects the current balance, the
balance never exceeds the principal, every stored row is bounded by
money(max P 0), and rows exist only when the principal exceeds the epsilon. -/
def SimDescInv (P : ℚ) (t : SimState) : Prop :=
  List.Chain' (fun a b => b.remaining ≤ a.remaining) t.schedule ∧
  (∀ l ∈ t.schedule.getLast?, money (max t.remaining 0) ≤ l.remaining) ∧
  t.remaining ≤ P ∧
  (∀ row ∈ t.schedule, row.remaining ≤ money (max P 0)) ∧
  (t.schedule = [] ∨ 1/200 < P)

/-- The same invariant for the prepay loop. -/
def PrepDescInv (P : ℚ) (t : PrepState) : Prop :=
  List.Chain' (fun a b => b.remaining ≤ a.remaining) t.schedule ∧
  (∀ l ∈ t.schedule.getLast?, money (max t.remaining 0) ≤ l.remaining) ∧
  t.remaining ≤ P ∧
  (∀ row ∈ t.schedule, row.remaining ≤ money (max P 0)) ∧
  (t.schedule = [] ∨ 1/200 < P)

theorem sim_desc_inv (P r emi : ℚ) (fuel : ℕ) (s s' : SimState)
    (h0 : SimDescInv P s) (h : runLoop (simStep r emi) fuel s = .ok s') :
    SimDescInv P s' := by
  refine runLoop_inv _ (SimDescInv P) ?_ fuel s s' h0 h
  intro t t' hI hstep
  rw [simStep_next_iff] at hstep
  obtain ⟨hg, hpc, rfl⟩ := hstep
  obtain ⟨hch, hlast, hrem, hall, hne⟩ := hI
  have hb := simBody_remaining_bounds r emi t hg hpc
  obtain ⟨row, hsched, hrowrem⟩ := simBody_schedule_shape r emi t
  have hrowle : row.remaining ≤ money (max t.remaining 0) := by
    rw [hrowrem]
    exact money_max_mono hb.2
  refine ⟨?_, ?_, ?_, ?_, ?_⟩
  · rw [hsched, List.chain'_append]
    refine ⟨hch, List.chain'_singleton row, ?_⟩
    intro x hx y hy
    simp only [List.head?_cons, Option.mem_def, Option.some.injEq] at hy
    subst hy
    exact le_trans hrowle (hlast x hx)
  · rw [hsched]
    intro l hl
    simp only [List.getLast?_concat, Option.mem_def, Option.some.injEq] at hl
    subst hl
    rw [hrowrem]
  · exact le_trans hb.2 hrem
  · rw [hsched]
    intro row' hrow'
    rcases List.mem_append.mp hrow' with hin | hin
    · exact hall row' hin
    · have hrr : row' = row := by simpa using hin
      subst hrr
      rw [hrowrem]
      exact money_max_mono (le_trans hb.2 hrem)
  · right
    linarith

theorem prep_desc_inv (P r inc_pct : ℚ) (saf : ℤ) (freq : String)
    (fuel : ℕ) (s s' : PrepState)
    (h0 : PrepDescInv P s)
    (h : runLoop (prepStep r inc_pct saf freq) fuel s = .ok s') :
    PrepDescInv P s' := by
  refine runLoop_inv _ (PrepDescInv P) ?_ fuel s s' h0 h
  intro t t' hI hstep
  rw [prepStep_next_iff] at hstep
  obtain ⟨hg, hpc, rfl⟩ := hstep
  obtain ⟨hch, hlast, hrem, hall, hne⟩ := hI
  have hb := prepBody_remaining_bounds r inc_pct saf freq t hg hpc
  obtain ⟨row, hsched, hrowrem⟩ := prepBody_schedule_shape r inc_pct saf freq t
  have hrowle : row.remaining ≤ money (max t.remaining 0) := by
    rw [hrowrem]
    exact money_max_mono hb.2
  refine ⟨?_, ?_, ?_, ?_, ?_⟩
  · rw [hsched, List.chain'_append]
    refine ⟨hch, List.chain'_singleton row, ?_⟩
    intro x hx y hy
    simp only [List.head?_cons, Option.mem_def, Option.some.injEq] at hy
    subst hy
    exact le_trans hrowle (hlast x hx)
  · rw [hsched]
    intro l hl
    simp only [List.getLast?_concat, Option.mem_def, Option.some.injEq] at hl
    subst hl
    rw [hrowrem]
  · exact le_trans hb.2 hrem
  · rw [hsched]
    intro row' hrow'
    rcases List.mem_append.mp hrow' with hin | hin
    · exact hall row' hin
    · have hrr : row' = row := by simpa using hin
      subst hrr
      rw [hrowrem]
      exact money_max_mono (le_trans hb.2 hrem)
  · right
    linarith

/-- C7 (amended): in every successful schedule of either simulator the stored
remainingBalance is non-increasing row over row; and provided the principal
is a whole number of cents (money P = P, which every currency amount
satisfies), the initial balance is at least the first row's remaining
balance. (For a principal that is not a whole cent count the second part can
fail by a sub-cent rounding; see the counterexample.) -/
theorem c7_amended_monotone_balance (P rate : ℚ) (n : ℤ) (e : Option ℚ)
    (ex lu pct : ℚ) (saf : ℤ) (freq : String) :
    (∀ res, simulate_schedule P rate n e = .ok res →
      List.Chain' (fun a b => b.remaining ≤ a.remaining) res.schedule ∧
      (money P = P → ∀ row ∈ res.schedule.head?, row.remaining ≤ P)) ∧
    (∀ res, simulate_with_prepay P rate n e ex lu pct saf freq = .ok res →
      List.Chain' (fun a b => b.remaining ≤ a.remaining) res.schedule ∧
      (money P = P → ∀ row ∈ res.schedule.head?, row.remaining ≤ P)) := by
  constructor
  · intro res h
    simp only [simulate_schedule] at h
    rw [except_map_ok_iff] at h
    obtain ⟨s', hs', rfl⟩ := h
    have hI : SimDescInv P s' := by
      refine sim_desc_inv P (monthly_rate rate) (resolveEmi P rate n e) 2000
        (initState P) s' ?_ hs'
      refine ⟨?_, ?_, ?_, ?_, ?_⟩ <;> simp [initState]
    obtain ⟨hch, -, -, hall, hne⟩ := hI
    simp only [mkResult]
    refine ⟨hch, ?_⟩
    intro hcent row hrow
    have hmem : row ∈ s'.schedule := List.mem_of_mem_head? hrow
    have hPos : 1/200 < P := by
      rcases hne with hnil | hP
      · rw [hnil] at hrow
        simp at hrow
      · exact hP
    have hle : row.remaining ≤ money (max P 0) := hall row hmem
    rwa [max_eq_left (by linarith), hcent] at hle
  · intro res h
    simp only [simulate_with_prepay] at h
    rw [except_map_ok_iff] at h
    obtain ⟨s', hs', rfl⟩ := h
    have hI : PrepDescInv P s' := by
      refine prep_desc_inv P (monthly_rate rate) (pct / 100) saf freq 2000
        (initPrepState (resolveEmi P rate n e) lu ex P) s' ?_ hs'
      refine ⟨?_, ?_, ?_, ?_, ?_⟩ <;> simp [initPrepState]
    obtain ⟨hch, -, -, hall, hne⟩ := hI
    simp only [mkPrepResult]
    refine ⟨hch, ?_⟩
    intro hcent row hrow
    have hmem : row ∈ s'.schedule := List.mem_of_mem_head? hrow
    have hPos : 1/200 < P := by
      rcases hne with hnil | hP
      · rw [hnil] at hrow
        simp at hrow
      · exact hP
    have hle : row.remaining ≤ money (max P 0) := hall row hmem
    rwa [max_eq_left (by linarith), hcent] at hle

/-- Witness for the amended C7 on the one-month schedule of principal 1,
rate 0, supplied EMI 1. -/
theorem c7_amended_witness :
    List.Chain' (fun a b : Row => b.remaining ≤ a.remaining)
      [(⟨1, 1, 0, 1, 0⟩ : Row)] ∧
    ∀ row ∈ ([⟨1, 1, 0, 1, 0⟩] : List Row).head?, row.remaining ≤ (1:ℚ) :=
  have h := (c7_amended_monotone_balance 1 0 1 (some 1) 0 0 0 0 "monthly").1
    ⟨[⟨1, 1, 0, 1, 0⟩], 1, 0, 1⟩ (by with_unfolding_all rfl)
  ⟨h.1, h.2 (by with_unfolding_all rfl)⟩

theorem simBody_interest_shape (r emi : ℚ) (t : SimState) :
    ∃ row, (simBody r emi t).schedule = t.schedule ++ [row] ∧
      row.interest = money (t.remaining * r) ∧
      (simBody r emi t).interest_total = t.interest_total + t.remaining * r := by
  simp only [simBody]
  exact ⟨_, rfl, rfl, trivial⟩

theorem prepBody_interest_shape (r inc_pct : ℚ) (saf : ℤ) (freq : String)
    (t : PrepState) :
    ∃ row, (prepBody r inc_pct saf freq t).schedule = t.schedule ++ [row] ∧
      row.interest = money (t.remaining * r) ∧
      (prepBody r inc_pct saf freq t).interest_total =
        t.interest_total + t.remaining * r := by
  simp only [prepBody]
  exact ⟨_, rfl, rfl, trivial⟩

/-- The loop keeps the gap between the stored (rounded) interest sum and the
exact accumulated interest below half a cent per row. -/
def SimIntInv (t : SimState) : Prop :=
  |(t.schedule.map Row.interest).sum - t.interest_total| ≤
    (t.schedule.length : ℚ) / 200

/-- The same accumulated-rounding invariant for the prepay loop. -/
def PrepIntInv (t : PrepState) : Prop :=
  |(t.schedule.map PRow.interest).sum - t.interest_total| ≤
    (t.schedule.length : ℚ) / 200

theorem sim_interest_sum_inv (r emi : ℚ) (fuel : ℕ) (s s' : SimState)
    (h0 : SimIntInv s)
    (h : runLoop (simStep r emi) fuel s = .ok s') :
    SimIntInv s' := by
  refine runLoop_inv _ SimIntInv ?_ fuel s s' h0 h
  intro t t' hI hstep
  unfold SimIntInv at hI ⊢
  rw [simStep_next_iff] at hstep
  obtain ⟨-, -, rfl⟩ := hstep
  obtain ⟨row, hsched, hint, htot⟩ := simBody_interest_shape r emi t
  rw [hsched, htot, List.map_append, List.sum_append, List.length_append]
  simp only [List.map_cons, List.map_nil, List.sum_cons, List.sum_nil,
    List.length_cons, List.length_nil, add_zero, zero_add]
  rw [hint]
  have hm := money_sub_abs (t.remaining * r)
  have key : |((t.schedule.map Row.interest).sum + money (t.remaining * r)) -
      (t.interest_total + t.remaining * r)| ≤
      |(t.schedule.map Row.interest).sum - t.interest_total| +
      |money (t.remaining * r) - t.remaining * r| := by
    have e : ((t.schedule.map Row.interest).sum + money (t.remaining * r)) -
        (t.interest_total + t.remaining * r) =
        ((t.schedule.map Row.interest).sum - t.interest_total) +
        (money (t.remaining * r) - t.remaining * r) := by
      ring
    rw [e]
    exact abs_add _ _
  push_cast
  linarith [hI, hm, key]

theorem prep_interest_sum_inv (r inc_pct : ℚ) (saf : ℤ) (freq : String)
    (fuel : ℕ) (s s' : PrepState)
    (h0 : PrepIntInv s)
    (h : runLoop (prepStep r inc_pct saf freq) fuel s = .ok s') :
    PrepIntInv s' := by
  refine runLoop_inv _ PrepIntInv ?_ fuel s s' h0 h
  intro t t' hI hstep
  unfold PrepIntInv at hI ⊢
  rw [prepStep_next_iff] at hstep
  obtain ⟨-, -, rfl⟩ := hstep
  obtain ⟨row, hsched, hint, htot⟩ := prepBody_interest_shape r inc_pct saf freq t
  rw [hsched, htot, List.map_append, List.sum_append, List.length_append]
  simp only [List.map_cons, List.map_nil, List.sum_cons, List.sum_nil,
    List.length_cons, List.length_nil, add_zero, zero_add]
  rw [hint]
  have hm := money_sub_abs (t.remaining * r)
  have key : |((t.schedule.map PRow.interest).sum + money (t.remaining * r)) -
      (t.interest_total + t.remaining * r)| ≤
      |(t.schedule.map PRow.interest).sum - t.interest_total| +
      |money (t.remaining * r) - t.remaining * r| := by
    have e : ((t.schedule.map PRow.interest).sum + money (t.remaining * r)) -
        (t.interest_total + t.remaining * r) =
        ((t.schedule.map PRow.interest).sum - t.interest_total) +
        (money (t.remaining * r) - t.remaining * r) := by
      ring
    rw [e]
    exact abs_add _ _
  push_cast
  linarith [hI, hm, key]

/-- C1 (amended): for every successful schedule of either simulator the sum
of the stored (per-month rounded) interest portions need not equal the
returned totalInterest (which is the single rounding of the exact interest
sum); they can differ by the accumulated rounding, bounded by
(numRows + 1) × 0.005. -/
theorem c1_amended_interest_total_bound (P rate : ℚ) (n : ℤ) (e : Option ℚ)
    (ex lu pct : ℚ) (saf : ℤ) (freq : String) :
    (∀ res, simulate_schedule P rate n e = .ok res →
      |(res.schedule.map Row.interest).sum - res.total_interest| ≤
        ((res.schedule.length : ℚ) + 1) / 200) ∧
    (∀ res, simulate_with_prepay P rate n e ex lu pct saf freq = .ok res →
      |(res.schedule.map PRow.interest).sum - res.total_interest| ≤
        ((res.schedule.length : ℚ) + 1) / 200) := by
  constructor
  · intro res h
    simp only [simulate_schedule] at h
    rw [except_map_ok_iff] at h
    obtain ⟨s', hs', rfl⟩ := h
    have hI := sim_interest_sum_inv (monthly_rate rate) (resolveEmi P rate n e)
      2000 (initState P) s' (by simp [SimIntInv, initState]) hs'
    unfold SimIntInv at hI
    simp only [mkResult]
    have hm := money_sub_abs s'.interest_total
    have key : |(s'.schedule.map Row.interest).sum - money s'.interest_total| ≤
        |(s'.schedule.map Row.interest).sum - s'.interest_total| +
        |money s'.interest_total - s'.interest_total| := by
      have e2 : (s'.schedule.map Row.interest).sum - money s'.interest_total =
          ((s'.schedule.map Row.interest).sum - s'.interest_total) +
          (s'.interest_total - money s'.interest_total) := by
        ring
      rw [e2]
      refine le_trans (abs_add _ _) ?_
      rw [abs_sub_comm s'.interest_total (money s'.interest_total)]
    linarith [hI, hm, key]
  · intro res h
    simp only [simulate_with_prepay] at h
    rw [except_map_ok_iff] at h
    obtain ⟨s', hs', rfl⟩ := h
    have hI := prep_interest_sum_inv (monthly_rate rate) (pct / 100) saf freq
      2000 (initPrepState (resolveEmi P rate n e) lu ex P) s'
      (by simp [PrepIntInv, initPrepState]) hs'
    unfold PrepIntInv at hI
    simp only [mkPrepResult]
    have hm := money_sub_abs s'.interest_total
    have key : |(s'.schedule.map PRow.interest).sum - money s'.interest_total| ≤
        |(s'.schedule.map PRow.interest).sum - s'.interest_total| +
        |money s'.interest_total - s'.interest_total| := by
      have e2 : (s'.schedule.map PRow.interest).sum - money s'.interest_total =
          ((s'.schedule.map PRow.interest).sum - s'.interest_total) +
          (s'.interest_total - money s'.interest_total) := by
        ring
      rw [e2]
      refine le_trans (abs_add _ _) ?_
      rw [abs_sub_comm s'.interest_total (money s'.interest_total)]
    linarith [hI, hm, key]

/-- Witness for the amended C1 on the empty schedule of principal 0. -/
theorem c1_amended_witness :
    |((([] : List Row).map Row.interest).sum - (0:ℚ))| ≤
      ((([] : List Row).length : ℚ) + 1) / 200 ∧
    |((([] : List PRow).map PRow.interest).sum - (0:ℚ))| ≤
      ((([] : List PRow).length : ℚ) + 1) / 200 :=
  ⟨(c1_amended_interest_total_bound 0 0 0 none 0 0 0 0 "monthly").1
      ⟨[], 0, 0, 0⟩ (by with_unfolding_all rfl),
   (c1_amended_interest_total_bound 0 0 0 none 0 0 0 0 "monthly").2
      ⟨[], 0, 0, 0⟩ (by with_unfolding_all rfl)⟩

/-- Forget the (always-empty, under a neutral policy) prepayment fields of a
prepay row. -/
def PRow.toRow (row : PRow) : Row :=
  { month := row.month, emi := row.emi, interest := row.interest,
    principal := row.principal, remaining := row.remaining }

/-- Correspondence between a baseline loop state and a prepay loop state run
with the neutral policy (extra = 0, lump = 0, EMI increase = 0). -/
def NeutralRel (emi : ℚ) (bs : SimState) (ps : PrepState) : Prop :=
  ps.emi = emi ∧ ps.lump = 0 ∧ ps.extra = 0 ∧ ps.month = bs.month ∧
  ps.interest_total = bs.interest_total ∧ ps.remaining = bs.remaining ∧
  ps.schedule.map PRow.toRow = bs.schedule ∧
  (∀ row ∈ ps.schedule, row.extra_paid = none ∧ row.lump_paid = none)

theorem neutral_body (r emi : ℚ) (saf : ℤ) (freq : String) (bs : SimState)
    (ps : PrepState) (h : NeutralRel emi bs ps) :
    NeutralRel emi (simBody r emi bs) (prepBody r 0 saf freq ps) := by
  obtain ⟨hemi, hlump, hextra, hmon, hitot, hrem, hsched, hnone⟩ := h
  have hstep : stepUpEmi 0 (ps.month + 1) ps.emi = emi := by
    unfold stepUpEmi
    rw [if_neg (by simp), hemi]
  refine ⟨?_, ?_, ?_, ?_, ?_, ?_, ?_, ?_⟩
  · simp [prepBody, hstep]
  · simp [prepBody, hlump]
  · simp [prepBody, hextra]
  · simp [prepBody, simBody, hmon]
  · simp [prepBody, simBody, hitot, hrem]
  · simp only [prepBody, simBody, hstep, hrem, hlump, hextra]
    simp only [gt_iff_lt, lt_self_iff_false, and_false, if_false, sub_zero]
    rcases lt_trichotomy (emi - bs.remaining * r) bs.remaining with hc | hc | hc
    · rw [if_neg (not_le.mpr hc), if_neg (not_lt.mpr hc.le)]
    · rw [if_pos hc.ge, if_neg (not_lt.mpr hc.le), hc]
    · rw [if_pos hc.le, if_pos hc]
  · simp only [prepBody, simBody, hstep, hrem, hlump, hextra, hitot]
    simp only [hmon]
    simp only [gt_iff_lt, lt_self_iff_false, and_false, if_false, sub_zero]
    rw [List.map_append, hsched]
    simp only [List.map_cons, List.map_nil, PRow.toRow]
    rcases lt_trichotomy (emi - bs.remaining * r) bs.remaining with hc | hc | hc
    · rw [if_neg (not_le.mpr hc), if_neg (not_le.mpr hc), if_neg (not_lt.mpr hc.le),
        if_neg (not_lt.mpr hc.le)]
    · have e3 : bs.remaining * r + bs.remaining = emi := by
        have := hc
        linarith
      rw [if_pos hc.ge, if_pos hc.ge, if_neg (not_lt.mpr hc.le),
        if_neg (not_lt.mpr hc.le), hc, e3]
    · rw [if_pos hc.le, if_pos hc.le, if_pos hc, if_pos hc]
  · simp only [prepBody]
    intro row hrow
    rcases List.mem_append.mp hrow with hin | hin
    · exact hnone row hin
    · have hr := List.mem_singleton.mp hin
      subst hr
      constructor
      · simp [hextra]
      · simp [hlump]

theorem neutral_step (r emi : ℚ) (saf : ℤ) (freq : String) (bs : SimState)
    (ps : PrepState) (h : NeutralRel emi bs ps) :
    (simStep r emi bs = .done ∧ prepStep r 0 saf freq ps = .done) ∨
    ((∃ e, simStep r emi bs = .fail e) ∧
      (∃ e, prepStep r 0 saf freq ps = .fail e)) ∨
    (∃ bs' ps', simStep r emi bs = .next bs' ∧
      prepStep r 0 saf freq ps = .next ps' ∧ NeutralRel emi bs' ps') := by
  have hemi := h.1
  have hrem := h.2.2.2.2.2.1
  have hstep : stepUpEmi 0 (ps.month + 1) ps.emi = emi := by
    unfold stepUpEmi
    rw [if_neg (by simp), hemi]
  by_cases hg : bs.remaining > 1/200
  · by_cases hpc : emi - bs.remaining * r ≤ 0
    · refine Or.inr (Or.inl ⟨?_, ?_⟩)
      · exact (simStep_fail_iff r emi bs).mpr ⟨hg, hpc⟩
      · refine (prepStep_fail_iff r 0 saf freq ps).mpr ⟨by rw [hrem]; exact hg, ?_⟩
        rw [hstep, hrem]
        exact hpc
    · refine Or.inr (Or.inr ⟨simBody r emi bs, prepBody r 0 saf freq ps, ?_, ?_, ?_⟩)
      · exact (simStep_next_iff r emi bs _).mpr ⟨hg, hpc, rfl⟩
      · refine (prepStep_next_iff r 0 saf freq ps _).mpr
          ⟨by rw [hrem]; exact hg, ?_, rfl⟩
        rw [hstep, hrem]
        exact hpc
      · exact neutral_body r emi saf freq bs ps h
  · left
    exact ⟨(simStep_done_iff r emi bs).mpr hg,
      (prepStep_done_iff r 0 saf freq ps).mpr (by rw [hrem]; exact hg)⟩

theorem neutral_run (r emi : ℚ) (saf : ℤ) (freq : String) :
    ∀ (fuel : ℕ) (bs : SimState) (ps : PrepState), NeutralRel emi bs ps →
      (match runLoop (simStep r emi) fuel bs,
          runLoop (prepStep r 0 saf freq) fuel ps with
       | .ok bs', .ok ps' => NeutralRel emi bs' ps'
       | .error _, .error _ => True
       | _, _ => False) := by
  intro fuel
  induction fuel with
  | zero =>
    intro bs ps h
    simp only [runLoop]
    exact h
  | succ n ih =>
    intro bs ps h
    rcases neutral_step r emi saf freq bs ps h with
      ⟨h1, h2⟩ | ⟨⟨e1, h1⟩, ⟨e2, h2⟩⟩ | ⟨bs', ps', h1, h2, hrel⟩
    · simp only [runLoop, h1, h2]
      exact h
    · simp only [runLoop, h1, h2]
    · simp only [runLoop, h1, h2]
      exact ih bs' ps' hrel

/-- C2: with the neutral policy (extra EMI 0, lump sum 0, EMI increase 0,
any start offset and frequency) and the same base EMI argument,
`simulate_with_prepay` either raises exactly when `simulate_schedule` raises,
or returns the same month count, totalInterest, totalPaid, and row-for-row
the same month, emi, interest, principal and remaining values — the `>=`
versus `>` clamp difference is immaterial because in the boundary case
`principal_component = remaining` both branches pay EMI exactly. -/
theorem c2_neutral_prepay_equals_baseline (P rate : ℚ) (n : ℤ) (e : Option ℚ)
    (saf : ℤ) (freq : String) :
    match simulate_schedule P rate n e,
        simulate_with_prepay P rate n e 0 0 0 saf freq with
    | .ok b, .ok p => p.months = b.months ∧
        p.total_interest = b.total_interest ∧
        p.total_paid = b.total_paid ∧ p.schedule.map PRow.toRow = b.schedule
    | .error _, .error _ => True
    | _, _ => False := by
  have h0 : NeutralRel (resolveEmi P rate n e) (initState P)
      (initPrepState (resolveEmi P rate n e) 0 0 P) := by
    refine ⟨rfl, rfl, rfl, rfl, rfl, rfl, rfl, ?_⟩
    intro row hrow
    simp [initPrepState] at hrow
  have hrun := neutral_run (monthly_rate rate) (resolveEmi P rate n e) saf freq
    2000 (initState P) (initPrepState (resolveEmi P rate n e) 0 0 P) h0
  simp only [simulate_schedule, simulate_with_prepay]
  rw [show (0:ℚ)/100 = 0 from by norm_num]
  rcases hb : runLoop (simStep (monthly_rate rate) (resolveEmi P rate n e)) 2000
      (initState P) with e1 | bs' <;>
    rcases hp : runLoop (prepStep (monthly_rate rate) 0 saf freq) 2000
      (initPrepState (resolveEmi P rate n e) 0 0 P) with e2 | ps' <;>
    rw [hb, hp] at hrun <;>
    simp only [Except.map]
  all_goals first
  | trivial
  | exact hrun.elim
  | (obtain ⟨hemi, hlump, hextra, hmon, hitot, hrem, hsched, hnone⟩ := hrun
     refine ⟨?_, ?_, ?_, ?_⟩
     · exact hmon
     · exact congrArg money hitot
     · have hemisum : (ps'.schedule.map PRow.emi).sum =
           (bs'.schedule.map Row.emi).sum := by
         rw [← hsched, List.map_map]
         rfl
       have hzero1 : (ps'.schedule.map (fun row => row.extra_paid.getD 0)).sum
           = 0 := by
         apply List.sum_eq_zero
         intro x hx
         obtain ⟨row, hrowmem, rfl⟩ := List.mem_map.mp hx
         rw [(hnone row hrowmem).1]
         rfl
       have hzero2 : (ps'.schedule.map (fun row => row.lump_paid.getD 0)).sum
           = 0 := by
         apply List.sum_eq_zero
         intro x hx
         obtain ⟨row, hrowmem, rfl⟩ := List.mem_map.mp hx
         rw [(hnone row hrowmem).2]
         rfl
       simp only [mkPrepResult, mkResult]
       rw [hzero1, hzero2, add_zero, add_zero, hemisum]
     · exact hsched)
